import Mathlib

/-
Verification of the generic finite-state-machine engine in src/fsm.cpp
(class `fsm<State, Input>`).  The engine owns four pieces of data:
a transition table `sd` (a `std::map` keyed by (state, input) pairs),
a registered-states set `listOfStates`, a `currentState` cell and a
`fallBackFunction` pointer.  We embed the engine state as a record and
every public operation as a pure function returning the updated record
together with the list of callback/fallback invocations the operation
performed.  A callback event records the value of the current-state cell
at the moment the callback runs, so the ordering between the
state update and the callback invocation inside `Step` is observable.
-/

namespace FsmVerify

/-- Lookup in an association list, modelling `std::map::find`:
the first entry whose key equals `k` is returned. -/
def mapFind {K V : Type} [DecidableEq K] : List (K × V) → K → Option V
  | [], _ => none
  | (k1, v) :: rest, k => if k1 = k then some v else mapFind rest k

/-- Insertion modelling `std::map::insert`: the pair is added only when no
entry with the same key is present; otherwise the map is unchanged
(`std::map::insert` never overwrites an existing key). -/
def mapInsertIfAbsent {K V : Type} [DecidableEq K]
    (sd : List (K × V)) (k : K) (v : V) : List (K × V) :=
  match mapFind sd k with
  | some _ => sd
  | none => (k, v) :: sd

/-- The data owned by one `fsm<State, Input>` instance (src/fsm.cpp lines
41-56): the transition table `sd`, the registered-states set
`listOfStates`, the `currentState` cell and the fallback pointer.
Callbacks (`FuncPtr` in the source) are modelled by an opaque type `CB`;
invoking one is recorded as an event rather than executed. -/
structure Machine (St Inp CB : Type) where
  sd : List ((St × Inp) × (St × CB))
  listOfStates : List St
  currentState : St
  fallBackFunction : CB
deriving DecidableEq

/-- One observable invocation performed by an operation: either a
transition callback (recording the current-state cell as the callback
would observe it via `GetState`) or the fallback function. -/
inductive Event (St CB : Type) where
  | callback (cb : CB) (observedState : St)
  | fallback (fb : CB)
deriving DecidableEq

variable {St Inp CB : Type} [DecidableEq St] [DecidableEq Inp]

/-- `fsm::AddState` (src/fsm.cpp lines 73-78): insert `s` into
`listOfStates` when absent; no callback or fallback is ever invoked. -/
def AddState (m : Machine St Inp CB) (s : St) :
    Machine St Inp CB × List (Event St CB) :=
  if s ∈ m.listOfStates then (m, [])
  else ({ m with listOfStates := s :: m.listOfStates }, [])

/-- `fsm::SetFallback` (src/fsm.cpp lines 85-89): overwrite the fallback
pointer. -/
def SetFallback (m : Machine St Inp CB) (fb : CB) :
    Machine St Inp CB × List (Event St CB) :=
  ({ m with fallBackFunction := fb }, [])

/-- `fsm::AddTransition` (src/fsm.cpp lines 99-119): if `s1` or `s2` is
not registered, call the fallback and change nothing; otherwise
`sd.insert` the entry keyed by `(s1, inp)` (a no-op when the key is
already present, as with `std::map::insert`). -/
def AddTransition (m : Machine St Inp CB) (s1 s2 : St) (inp : Inp) (cb : CB) :
    Machine St Inp CB × List (Event St CB) :=
  if s1 ∉ m.listOfStates then (m, [Event.fallback m.fallBackFunction])
  else if s2 ∉ m.listOfStates then (m, [Event.fallback m.fallBackFunction])
  else ({ m with sd := mapInsertIfAbsent m.sd (s1, inp) (s2, cb) }, [])

/-- `fsm::ResetMachine` (src/fsm.cpp lines 126-137): if `s` is not
registered, call the fallback and change nothing; otherwise assign the
current-state cell directly (no callback). -/
def ResetMachine (m : Machine St Inp CB) (s : St) :
    Machine St Inp CB × List (Event St CB) :=
  if s ∉ m.listOfStates then (m, [Event.fallback m.fallBackFunction])
  else ({ m with currentState := s }, [])

/-- `fsm::GetState` (src/fsm.cpp lines 144-146): return the
current-state cell. -/
def GetState (m : Machine St Inp CB) : St :=
  m.currentState

/-- `fsm::Step` (src/fsm.cpp lines 154-166): look up `(currentState,
inp)` in `sd`; on a miss call the fallback, on a hit first assign the
destination to the current-state cell and then invoke the entry's
callback (the recorded event carries the already-updated cell). -/
def Step (m : Machine St Inp CB) (inp : Inp) :
    Machine St Inp CB × List (Event St CB) :=
  match mapFind m.sd (m.currentState, inp) with
  | none => (m, [Event.fallback m.fallBackFunction])
  | some (d, cb) =>
    let m2 := { m with currentState := d }
    (m2, [Event.callback cb m2.currentState])

/-- One call to a public operation of the engine, used to describe
sequences of calls. -/
inductive Op (St Inp CB : Type) where
  | addState (s : St)
  | setFallback (fb : CB)
  | addTransition (s1 s2 : St) (inp : Inp) (cb : CB)
  | reset (s : St)
  | step (inp : Inp)
  | getState
deriving DecidableEq

/-- The machine resulting from one operation call (events dropped). -/
def applyOp (m : Machine St Inp CB) : Op St Inp CB → Machine St Inp CB
  | Op.addState s => (AddState m s).1
  | Op.setFallback fb => (SetFallback m fb).1
  | Op.addTransition s1 s2 inp cb => (AddTransition m s1 s2 inp cb).1
  | Op.reset s => (ResetMachine m s).1
  | Op.step inp => (Step m inp).1
  | Op.getState => m

/-- Run a sequence of operation calls from a machine. -/
def runOps (m : Machine St Inp CB) (ops : List (Op St Inp CB)) :
    Machine St Inp CB :=
  ops.foldl applyOp m

/-- A freshly constructed engine (src/fsm.cpp line 66): empty table and
state set; the `currentState` cell and fallback pointer are
uninitialized in the source, so they are arbitrary parameters here. -/
def initMachine (c0 : St) (fb : CB) : Machine St Inp CB :=
  ⟨[], [], c0, fb⟩

/-- Every state registered in `m1` is registered in `m2`. -/
def statesMono (m1 m2 : Machine St Inp CB) : Prop :=
  ∀ s, s ∈ m1.listOfStates → s ∈ m2.listOfStates

/-- Every transition-table entry of `m1` is an entry of `m2`. -/
def tableMono (m1 m2 : Machine St Inp CB) : Prop :=
  ∀ k v, mapFind m1.sd k = some v → mapFind m2.sd k = some v

/-- Every destination state stored in the transition table is
registered. -/
def TableOK (m : Machine St Inp CB) : Prop :=
  ∀ k d cb, mapFind m.sd k = some (d, cb) → d ∈ m.listOfStates

/-- The inductive invariant for reachability: the table only targets
registered states and the current-state cell holds a registered
state. -/
def StateOK (m : Machine St Inp CB) : Prop :=
  TableOK m ∧ m.currentState ∈ m.listOfStates

/-- A small concrete engine state used to instantiate theorems with
hypotheses: states 1 and 2 registered, one transition from state 1 on
input 5 to state 2 with callback 10, current state 1, fallback 7. -/
def wM : Machine Nat Nat Nat :=
  ⟨[((1, 5), (2, 10))], [1, 2], 1, 7⟩

/-- C1: when the transition table has an entry for `(currentState, inp)`,
`Step inp` updates the current-state cell to the entry's destination and
invokes exactly that entry's callback once, after the update, so a
`GetState` from inside the callback observes the post-transition state;
no fallback is invoked. -/
theorem step_match_updates_then_calls (m : Machine St Inp CB) (inp : Inp)
    (d : St) (cb : CB)
    (h : mapFind m.sd (m.currentState, inp) = some (d, cb)) :
    Step m inp = ({ m with currentState := d },
      [Event.callback cb (GetState { m with currentState := d })]) ∧
    GetState (Step m inp).1 = d := by
  simp [Step, h, GetState]

/-- Witness for C1 on the concrete engine `wM`. -/
theorem step_match_updates_then_calls_witness :
    Step wM 5 = ({ wM with currentState := 2 },
      [Event.callback 10 (GetState { wM with currentState := 2 })]) ∧
    GetState (Step wM 5).1 = 2 :=
  step_match_updates_then_calls wM 5 2 10 (by decide)

/-- C3: when the transition table has no entry for `(currentState,
inp)`, `Step inp` invokes the fallback exactly once, invokes no
transition callback, and leaves the current-state cell (hence
`GetState`) unchanged. -/
theorem step_nomatch_calls_fallback (m : Machine St Inp CB) (inp : Inp)
    (h : mapFind m.sd (m.currentState, inp) = none) :
    Step m inp = (m, [Event.fallback m.fallBackFunction]) ∧
    GetState (Step m inp).1 = GetState m := by
  simp [Step, h]

/-- Witness for C3 on the concrete engine `wM` with unmatched input 9. -/
theorem step_nomatch_calls_fallback_witness :
    Step wM 9 = (wM, [Event.fallback wM.fallBackFunction]) ∧
    GetState (Step wM 9).1 = GetState wM :=
  step_nomatch_calls_fallback wM 9 (by decide)

/-- C4: `AddTransition s1 s2 inp cb` with `s1` or `s2` unregistered
invokes the fallback exactly once and leaves the whole engine state,
in particular the transition table, exactly as before. -/
theorem addTransition_invalid_fallback (m : Machine St Inp CB)
    (s1 s2 : St) (inp : Inp) (cb : CB)
    (h : s1 ∉ m.listOfStates ∨ s2 ∉ m.listOfStates) :
    AddTransition m s1 s2 inp cb = (m, [Event.fallback m.fallBackFunction]) := by
  rcases h with h | h
  · simp [AddTransition, h]
  · by_cases h1 : s1 ∈ m.listOfStates
    · simp [AddTransition, h1, h]
    · simp [AddTransition, h1]

/-- Witness for C4 on the concrete engine `wM` with unregistered
destination 3. -/
theorem addTransition_invalid_fallback_witness :
    AddTransition wM 1 3 0 0 = (wM, [Event.fallback wM.fallBackFunction]) :=
  addTransition_invalid_fallback wM 1 3 0 0 (Or.inr (by decide))

/-- C5: `ResetMachine s` with `s` registered sets the current-state cell
to `s` (so `GetState` returns `s`) and invokes neither a transition
callback nor the fallback. -/
theorem resetMachine_valid_sets_state (m : Machine St Inp CB) (s : St)
    (h : s ∈ m.listOfStates) :
    ResetMachine m s = ({ m with currentState := s }, []) ∧
    GetState (ResetMachine m s).1 = s := by
  simp [ResetMachine, h, GetState]

/-- Witness for C5 on the concrete engine `wM` with registered state 2. -/
theorem resetMachine_valid_sets_state_witness :
    ResetMachine wM 2 = ({ wM with currentState := 2 }, []) ∧
    GetState (ResetMachine wM 2).1 = 2 :=
  resetMachine_valid_sets_state wM 2 (by decide)

/-- C6: `ResetMachine s` with `s` unregistered invokes the fallback
exactly once and leaves the whole engine state, in particular the
current-state cell, exactly as before. -/
theorem resetMachine_invalid_fallback (m : Machine St Inp CB) (s : St)
    (h : s ∉ m.listOfStates) :
    ResetMachine m s = (m, [Event.fallback m.fallBackFunction]) := by
  simp [ResetMachine, h]

/-- Witness for C6 on the concrete engine `wM` with unregistered
state 3. -/
theorem resetMachine_invalid_fallback_witness :
    ResetMachine wM 3 = (wM, [Event.fallback wM.fallBackFunction]) :=
  resetMachine_invalid_fallback wM 3 (by decide)

/-- C7: `AddState` is idempotent: calling it twice with the same state
yields exactly the engine state (and registered-states set) of calling
it once, and neither call invokes any callback or fallback. -/
theorem addState_idempotent (m : Machine St Inp CB) (s : St) :
    AddState (AddState m s).1 s = AddState m s ∧
    (AddState m s).2 = [] := by
  by_cases h : s ∈ m.listOfStates
  · simp [AddState, h]
  · simp [AddState, h]

/-- Entries already present survive `mapInsertIfAbsent` unchanged. -/
theorem mapFind_insertIfAbsent_of_find {K V : Type} [DecidableEq K]
    (sd : List (K × V)) (k1 : K) (v1 : V) (k : K) (v : V)
    (h : mapFind sd k = some v) :
    mapFind (mapInsertIfAbsent sd k1 v1) k = some v := by
  cases hf : mapFind sd k1 with
  | some w => simpa [mapInsertIfAbsent, hf] using h
  | none =>
    by_cases hk : k1 = k
    · subst hk
      simp [h] at hf
    · simp [mapInsertIfAbsent, hf, mapFind, hk, h]

/-- Any entry found after `mapInsertIfAbsent` was already present or is
the inserted pair. -/
theorem mapFind_insertIfAbsent_cases {K V : Type} [DecidableEq K]
    (sd : List (K × V)) (k1 : K) (v1 : V) (k : K) (v : V)
    (h : mapFind (mapInsertIfAbsent sd k1 v1) k = some v) :
    mapFind sd k = some v ∨ (k1 = k ∧ v1 = v) := by
  cases hf : mapFind sd k1 with
  | some w =>
    simp only [mapInsertIfAbsent, hf] at h
    exact Or.inl h
  | none =>
    simp only [mapInsertIfAbsent, hf, mapFind] at h
    by_cases hk : k1 = k
    · simp [hk] at h
      exact Or.inr ⟨hk, h⟩
    · simp [hk] at h
      exact Or.inl h

/-- `AddState` never touches the transition table. -/
theorem addState_sd (m : Machine St Inp CB) (s : St) :
    (AddState m s).1.sd = m.sd := by
  by_cases h : s ∈ m.listOfStates <;> simp [AddState, h]

/-- `AddState` never touches the current-state cell. -/
theorem addState_currentState (m : Machine St Inp CB) (s : St) :
    (AddState m s).1.currentState = m.currentState := by
  by_cases h : s ∈ m.listOfStates <;> simp [AddState, h]

/-- `AddState` only grows the registered-states set. -/
theorem addState_states_mono (m : Machine St Inp CB) (s x : St)
    (hx : x ∈ m.listOfStates) : x ∈ (AddState m s).1.listOfStates := by
  by_cases h : s ∈ m.listOfStates
  · simpa [AddState, h] using hx
  · simp [AddState, h]
    exact Or.inr hx

/-- `AddTransition` never touches the registered-states set. -/
theorem addTransition_listOfStates (m : Machine St Inp CB)
    (s1 s2 : St) (inp : Inp) (cb : CB) :
    (AddTransition m s1 s2 inp cb).1.listOfStates = m.listOfStates := by
  by_cases h1 : s1 ∈ m.listOfStates
  · by_cases h2 : s2 ∈ m.listOfStates <;> simp [AddTransition, h1, h2]
  · simp [AddTransition, h1]

/-- `AddTransition` never touches the current-state cell. -/
theorem addTransition_currentState (m : Machine St Inp CB)
    (s1 s2 : St) (inp : Inp) (cb : CB) :
    (AddTransition m s1 s2 inp cb).1.currentState = m.currentState := by
  by_cases h1 : s1 ∈ m.listOfStates
  · by_cases h2 : s2 ∈ m.listOfStates <;> simp [AddTransition, h1, h2]
  · simp [AddTransition, h1]

/-- Table entries survive `AddTransition`. -/
theorem addTransition_tableMono (m : Machine St Inp CB)
    (s1 s2 : St) (inp : Inp) (cb : CB) (k : St × Inp) (v : St × CB)
    (hv : mapFind m.sd k = some v) :
    mapFind (AddTransition m s1 s2 inp cb).1.sd k = some v := by
  by_cases h1 : s1 ∈ m.listOfStates
  · by_cases h2 : s2 ∈ m.listOfStates
    · simpa [AddTransition, h1, h2] using
        mapFind_insertIfAbsent_of_find m.sd (s1, inp) (s2, cb) k v hv
    · simpa [AddTransition, h1, h2] using hv
  · simpa [AddTransition, h1] using hv

/-- `ResetMachine` never touches the transition table or the
registered-states set. -/
theorem resetMachine_sd_states (m : Machine St Inp CB) (s : St) :
    (ResetMachine m s).1.sd = m.sd ∧
    (ResetMachine m s).1.listOfStates = m.listOfStates := by
  by_cases h : s ∈ m.listOfStates <;> simp [ResetMachine, h]

/-- `Step` never touches the transition table or the registered-states
set. -/
theorem step_sd_states (m : Machine St Inp CB) (inp : Inp) :
    (Step m inp).1.sd = m.sd ∧
    (Step m inp).1.listOfStates = m.listOfStates := by
  cases hf : mapFind m.sd (m.currentState, inp) with
  | none => simp [Step, hf]
  | some v => cases v with
    | mk d cb => simp [Step, hf]

/-- Each single operation only grows the registered-states set. -/
theorem statesMono_applyOp (m : Machine St Inp CB) (op : Op St Inp CB) :
    statesMono m (applyOp m op) := by
  intro x hx
  cases op with
  | addState s => exact addState_states_mono m s x hx
  | setFallback fb => exact hx
  | addTransition s1 s2 inp cb =>
    rw [applyOp, addTransition_listOfStates]
    exact hx
  | reset s =>
    rw [applyOp, (resetMachine_sd_states m s).2]
    exact hx
  | step inp =>
    rw [applyOp, (step_sd_states m inp).2]
    exact hx
  | getState => exact hx

/-- Each single operation only grows the transition table. -/
theorem tableMono_applyOp (m : Machine St Inp CB) (op : Op St Inp CB) :
    tableMono m (applyOp m op) := by
  intro k v hv
  cases op with
  | addState s =>
    rw [applyOp, addState_sd]
    exact hv
  | setFallback fb => exact hv
  | addTransition s1 s2 inp cb =>
    exact addTransition_tableMono m s1 s2 inp cb k v hv
  | reset s =>
    rw [applyOp, (resetMachine_sd_states m s).1]
    exact hv
  | step inp =>
    rw [applyOp, (step_sd_states m inp).1]
    exact hv
  | getState => exact hv

/-- C8: the registered-states set and the transition table grow
monotonically: no operation of the engine removes a registered state or
a transition-table entry. -/
theorem operations_monotone (m : Machine St Inp CB) (op : Op St Inp CB) :
    statesMono m (applyOp m op) ∧ tableMono m (applyOp m op) :=
  ⟨statesMono_applyOp m op, tableMono_applyOp m op⟩

/-- The engine state reached after registering states 1, 2, 3 and then
calling `AddTransition 1 2` on input 5 with callback 10 (from an engine
whose current state is 1 and whose fallback is 7). -/
def firstWriteM : Machine Nat Nat Nat :=
  (AddTransition (⟨[], [1, 2, 3], 1, 7⟩ : Machine Nat Nat Nat) 1 2 5 10).1

/-- The engine state after additionally calling `AddTransition 1 3` on
the same input 5 with callback 20 — the same `(source, input)` key as
the earlier registration. -/
def secondWriteM : Machine Nat Nat Nat :=
  (AddTransition firstWriteM 1 3 5 20).1

/-- C2 counterexample: with states 1, 2, 3 registered, after
`AddTransition 1 2 5 10` followed by `AddTransition 1 3 5 20`, the table
entry for key `(1, 5)` is still the first registration `(2, 10)` — not
the later `(3, 20)` as the claim requires — and a `Step` from state 1 on
input 5 moves to state 2, using the earlier registration.
(`std::map::insert` in `fsm::AddTransition` does not overwrite an
existing key.) -/
theorem addTransition_last_write_wins_cex :
    mapFind secondWriteM.sd (1, 5) = some (2, 10) ∧
    ¬ mapFind secondWriteM.sd (1, 5) = some (3, 20) ∧
    GetState (Step secondWriteM 5).1 = 2 := by decide

/-- C2 amended: if a transition for the key `(s1, inp)` is already
present, a later `AddTransition s1 s2 inp cb` leaves the transition
table completely unchanged — the earlier entry's destination and
callback are kept (first-write-wins), and every subsequent `Step` from
`s1` on `inp` uses the earlier registration. -/
theorem addTransition_first_write_wins (m : Machine St Inp CB)
    (s1 s2 : St) (inp : Inp) (cb : CB) (d : St) (c : CB)
    (h : mapFind m.sd (s1, inp) = some (d, c)) :
    (AddTransition m s1 s2 inp cb).1.sd = m.sd ∧
    mapFind (AddTransition m s1 s2 inp cb).1.sd (s1, inp) = some (d, c) := by
  by_cases h1 : s1 ∈ m.listOfStates
  · by_cases h2 : s2 ∈ m.listOfStates
    · constructor
      · simp [AddTransition, h1, h2, mapInsertIfAbsent, h]
      · simp [AddTransition, h1, h2, mapInsertIfAbsent, h]
    · simp [AddTransition, h1, h2, h]
  · simp [AddTransition, h1, h]

/-- Witness for the amended C2: the second registration on key `(1, 5)`
changes nothing. -/
theorem addTransition_first_write_wins_witness :
    (AddTransition firstWriteM 1 3 5 20).1.sd = firstWriteM.sd ∧
    mapFind (AddTransition firstWriteM 1 3 5 20).1.sd (1, 5) = some (2, 10) :=
  addTransition_first_write_wins firstWriteM 1 3 5 20 2 10 (by decide)

/-- Each single operation preserves the property that every destination
stored in the transition table is a registered state. -/
theorem tableOK_applyOp (m : Machine St Inp CB) (op : Op St Inp CB)
    (h : TableOK m) : TableOK (applyOp m op) := by
  intro k d cb hf
  cases op with
  | addState s =>
    rw [applyOp, addState_sd] at hf
    exact addState_states_mono m s d (h k d cb hf)
  | setFallback fb => exact h k d cb hf
  | addTransition s1 s2 inp c =>
    rw [applyOp, addTransition_listOfStates]
    by_cases h1 : s1 ∈ m.listOfStates
    · by_cases h2 : s2 ∈ m.listOfStates
      · simp only [applyOp, AddTransition, h1, h2, if_neg, if_pos,
          not_true_eq_false, not_false_eq_true, ite_false, ite_true] at hf
        rcases mapFind_insertIfAbsent_cases m.sd (s1, inp) (s2, c) k (d, cb) hf with
          hold | ⟨_, hnew⟩
        · exact h k d cb hold
        · cases hnew
          exact h2
      · simp only [applyOp, AddTransition, h1, h2, not_true_eq_false,
          not_false_eq_true, ite_false, ite_true] at hf
        exact h k d cb hf
    · simp only [applyOp, AddTransition, h1, not_false_eq_true, ite_true] at hf
      exact h k d cb hf
  | reset s =>
    rw [applyOp, (resetMachine_sd_states m s).1] at hf
    rw [applyOp, (resetMachine_sd_states m s).2]
    exact h k d cb hf
  | step inp =>
    rw [applyOp, (step_sd_states m inp).1] at hf
    rw [applyOp, (step_sd_states m inp).2]
    exact h k d cb hf
  | getState => exact h k d cb hf

/-- Each single operation preserves the inductive invariant: table
destinations registered and current state registered. -/
theorem stateOK_applyOp (m : Machine St Inp CB) (op : Op St Inp CB)
    (h : StateOK m) : StateOK (applyOp m op) := by
  obtain ⟨ht, hc⟩ := h
  refine ⟨tableOK_applyOp m op ht, ?_⟩
  cases op with
  | addState s =>
    rw [applyOp, addState_currentState]
    exact addState_states_mono m s _ hc
  | setFallback fb => exact hc
  | addTransition s1 s2 inp c =>
    rw [applyOp, addTransition_currentState, addTransition_listOfStates]
    exact hc
  | reset s =>
    rw [applyOp]
    by_cases hs : s ∈ m.listOfStates
    · simp [ResetMachine, hs]
    · simpa [ResetMachine, hs] using hc
  | step inp =>
    rw [applyOp]
    cases hf : mapFind m.sd (m.currentState, inp) with
    | none => simpa [Step, hf] using hc
    | some v =>
      cases v with
      | mk d cb =>
        simp only [Step, hf]
        exact ht (m.currentState, inp) d cb hf
  | getState => exact hc

/-- The table-destinations-registered property is preserved along any
sequence of operations. -/
theorem tableOK_runOps (m : Machine St Inp CB) (ops : List (Op St Inp CB))
    (h : TableOK m) : TableOK (runOps m ops) := by
  induction ops generalizing m with
  | nil => exact h
  | cons op rest ih => exact ih (applyOp m op) (tableOK_applyOp m op h)

/-- The inductive invariant is preserved along any sequence of
operations. -/
theorem stateOK_runOps (m : Machine St Inp CB) (ops : List (Op St Inp CB))
    (h : StateOK m) : StateOK (runOps m ops) := by
  induction ops generalizing m with
  | nil => exact h
  | cons op rest ih => exact ih (applyOp m op) (stateOK_applyOp m op h)

/-- A fresh engine's (empty) transition table trivially targets only
registered states. -/
theorem tableOK_initMachine (c0 : St) (fb : CB) :
    TableOK (initMachine c0 fb : Machine St Inp CB) := by
  intro k d cb hf
  simp [initMachine, mapFind] at hf

/-- C10: in every engine state reachable from a fresh engine by a
sequence of operations that contains at least one successful reset (a
`ResetMachine s` with `s` registered at that point), the current-state
cell holds a registered state: resets only assign registered states,
and steps only assign destinations that `AddTransition` checked against
the registered-states set, while states are never removed. -/
theorem reachable_current_state_registered (c0 : St) (fb : CB)
    (ops1 : List (Op St Inp CB)) (s : St) (ops2 : List (Op St Inp CB))
    (h : s ∈ (runOps (initMachine c0 fb) ops1).listOfStates) :
    (runOps (applyOp (runOps (initMachine c0 fb) ops1) (Op.reset s))
        ops2).currentState
      ∈ (runOps (applyOp (runOps (initMachine c0 fb) ops1) (Op.reset s))
        ops2).listOfStates := by
  have ht1 : TableOK (runOps (initMachine c0 fb : Machine St Inp CB) ops1) :=
    tableOK_runOps _ ops1 (tableOK_initMachine c0 fb)
  have h2 : StateOK (applyOp (runOps (initMachine c0 fb) ops1) (Op.reset s)) := by
    rw [applyOp]
    have hres : (ResetMachine (runOps (initMachine c0 fb) ops1) s).1
        = { runOps (initMachine c0 fb : Machine St Inp CB) ops1 with
            currentState := s } := by
      simp [ResetMachine, h]
    rw [hres]
    exact ⟨fun k d cb hf => ht1 k d cb hf, h⟩
  exact (stateOK_runOps _ ops2 h2).2

/-- Witness for C10: register state 1, reset to it, then take a
(fallback) step; the current state 1 is registered. -/
theorem reachable_current_state_registered_witness :
    (runOps (applyOp (runOps (initMachine 0 7 : Machine Nat Nat Nat)
        [Op.addState 1]) (Op.reset 1)) [Op.step 9]).currentState
      ∈ (runOps (applyOp (runOps (initMachine 0 7 : Machine Nat Nat Nat)
        [Op.addState 1]) (Op.reset 1)) [Op.step 9]).listOfStates :=
  reachable_current_state_registered 0 7 [Op.addState 1] 1 [Op.step 9]
    (by decide)

end FsmVerify
